import Mathlib

/-!
Verification of the unsloth fast-Llama attention engine.

A shallow embedding, in Lean 4, of `unsloth/models/llama.py`: the incremental
KV-cache decode path (`LlamaAttention_fast_forward_inference`), the
full-sequence attention dispatch (`LlamaAttention_fast_forward`), the model
level input checks, position-id handling and causal-mask construction
(`LlamaModel_fast_forward`), the shifted-label loss of
`LlamaForCausalLM_fast_forward`, and grouped-query key/value expansion.

Modelling conventions:
* Tensors over one batch element and one head are `Vec d := Fin d → ℚ`; a
  (batch, heads, seq, head_dim) tensor is a structure carrying its batch and
  head-count sizes together with an indexing function into per-position lists.
* Floating-point arithmetic is modelled by exact rationals.  The
  transcendental ingredients that the kernels consume — the exponential inside
  softmax, the rotary sine/cosine rotation, and the scalar `head_dim ** -0.5`
  — are taken as parameters (`E`, `rope`, `scale`): every theorem below holds
  for an arbitrary choice of these, which in particular covers the real ones.
* Shape errors that would raise at runtime (e.g. `torch.cat` on mismatched
  head counts) are modelled by `Option`/`Except` results (`none`/`.error`).
-/

namespace Unsloth

/-- A `d`-dimensional rational vector: one head slice of one position. -/
abbrev Vec (d : ℕ) := Fin d → ℚ

/-- Dot product of two head vectors, `torch.matmul` on one (row, column). -/
def dot {d : ℕ} (u v : Vec d) : ℚ := Finset.univ.sum fun i => u i * v i

/-- Row softmax as executed by `torch.nn.functional.softmax` on one row of
scores, with the exponential abstracted into the parameter `E`:
entry `i` becomes `E sᵢ / Σⱼ E sⱼ`. -/
def softmaxRow (E : ℚ → ℚ) (scores : List ℚ) : List ℚ :=
  (scores.map E).map fun x => x / (scores.map E).sum

/-- One row of scaled dot-product attention with no mask, as computed by
lines 151–154 of `llama.py`: scores `q·kⱼ * scale`, softmax, then the
weighted sum of the value rows. -/
def attendRow {d : ℕ} (E : ℚ → ℚ) (scale : ℚ) (q : Vec d)
    (ks vs : List (Vec d)) : Vec d :=
  let w := softmaxRow E (ks.map fun k => dot q k * scale)
  fun i => (List.zipWith (fun c v => c * v i) w vs).sum

/-- Scores of one query row against keys sitting at consecutive absolute
positions `j, j+1, …`, with the additive mask value `mask p` added at each
position `p` (`scores = Q·Kᵀ * scale + attention_mask`, one row). -/
def scoresWithMask {d : ℕ} (scale : ℚ) (q : Vec d) (mask : ℕ → ℚ) :
    ℕ → List (Vec d) → List ℚ
  | _, [] => []
  | j, k :: ks => (dot q k * scale + mask j) :: scoresWithMask scale q mask (j + 1) ks

/-- One row of dense masked attention: masked scores, softmax, times V. -/
def attendRowMasked {d : ℕ} (E : ℚ → ℚ) (scale : ℚ) (q : Vec d) (mask : ℕ → ℚ)
    (ks vs : List (Vec d)) : Vec d :=
  let w := softmaxRow E (scoresWithMask scale q mask 0 ks)
  fun i => (List.zipWith (fun c v => c * v i) w vs).sum

/-- A mask row whose entries are all zero changes nothing: the masked scores
coincide with the unmasked ones. -/
theorem scoresWithMask_eq_of_zero {d : ℕ} (scale : ℚ) (q : Vec d) (mask : ℕ → ℚ) :
    ∀ (ks : List (Vec d)) (j : ℕ), (∀ p, p < j + ks.length → mask p = 0) →
      scoresWithMask scale q mask j ks = ks.map fun k => dot q k * scale := by
  intro ks
  induction ks with
  | nil => intro j _; rfl
  | cons k ks ih =>
      intro j hz
      have h0 : mask j = 0 := hz j (by simp)
      have hrest : ∀ p, p < (j + 1) + ks.length → mask p = 0 := by
        intro p hp
        exact hz p (by simp only [List.length_cons]; omega)
      simp [scoresWithMask, h0, ih (j + 1) hrest]

/-- Dense attention under an all-zero mask row is unmasked attention. -/
theorem attendRowMasked_eq_attendRow {d : ℕ} (E : ℚ → ℚ) (scale : ℚ) (q : Vec d)
    (mask : ℕ → ℚ) (ks vs : List (Vec d)) (hz : ∀ p, p < ks.length → mask p = 0) :
    attendRowMasked E scale q mask ks vs = attendRow E scale q ks vs := by
  unfold attendRowMasked attendRow
  rw [scoresWithMask_eq_of_zero scale q mask ks 0 (by simpa using hz)]

/-! ## Grouped-query key/value expansion

`llama.py` expands K/V to the full query-head count with
`K[:, :, None, :, :].expand(bsz, n_kv_heads, n_groups, len, head_dim)
  .reshape(bsz, n_heads, len, head_dim)`
guarded by `if n_groups != 1:` (lines 142–148 and 253–258).  Per batch
element this acts on the list of head slices: `expand` makes `g` broadcast
copies of every head, `reshape` flattens the (kv-head, group) axes with the
kv-head axis major. -/

/-- The `expand`+`reshape` pair of the source, one batch element: every head
slice becomes `g` copies, and the group axis is flattened into the head
axis (kv-head major). -/
def expandReshape {α : Type} (g : ℕ) (heads : List α) : List α :=
  (heads.map fun hd => List.replicate g hd).flatten

/-- The guarded expansion exactly as in the source: a no-op when
`n_groups == 1`, the `expand`+`reshape` broadcast otherwise. -/
def groupedExpand {α : Type} (g : ℕ) (heads : List α) : List α :=
  if g = 1 then heads else expandReshape g heads

/-- Literal contiguous repetition of each KV head `g` times, the reference
behaviour named by the spec for `GroupedQueryExpander`. -/
def repeatHeads {α : Type} (g : ℕ) : List α → List α
  | [] => []
  | h :: t => List.replicate g h ++ repeatHeads g t

theorem expandReshape_eq_repeatHeads {α : Type} (g : ℕ) (heads : List α) :
    expandReshape g heads = repeatHeads g heads := by
  induction heads with
  | nil => rfl
  | cons h t ih => simp [expandReshape, repeatHeads, List.flatten] at ih ⊢; exact ih

theorem repeatHeads_one {α : Type} (heads : List α) :
    repeatHeads 1 heads = heads := by
  induction heads with
  | nil => rfl
  | cons h t ih => simp [repeatHeads, ih]

theorem repeatHeads_length {α : Type} (g : ℕ) (heads : List α) :
    (repeatHeads g heads).length = heads.length * g := by
  induction heads with
  | nil => simp [repeatHeads]
  | cons h t ih => simp [repeatHeads, ih]; ring

/-- Position `h` of the contiguous repetition is KV head `h / g`. -/
theorem repeatHeads_getD {α : Type} (g : ℕ) (heads : List α) (dflt : α) :
    ∀ h, h < heads.length * g →
      (repeatHeads g heads).getD h dflt = heads.getD (h / g) dflt := by
  induction heads with
  | nil => intro h hh; simp at hh
  | cons a t ih =>
      intro h hh
      have hg : 0 < g := by
        rcases Nat.eq_zero_or_pos g with h0 | h0
        · subst h0; simp at hh
        · exact h0
      by_cases hlt : h < g
      · have hdiv : h / g = 0 := Nat.div_eq_of_lt hlt
        rw [repeatHeads, List.getD_append _ _ _ _ (by simpa using hlt), hdiv]
        simp [List.getD, List.getElem?_replicate, hlt]
      · push_neg at hlt
        have hlen : (List.replicate g a).length ≤ h := by simpa using hlt
        have hdiv : h / g = (h - g) / g + 1 := Nat.div_eq_sub_div hg hlt
        rw [repeatHeads, List.getD_append_right _ _ _ _ hlen]
        simp only [List.length_replicate]
        rw [ih (h - g) (by simp [Nat.succ_mul] at hh; omega), hdiv]
        rfl

theorem groupedExpand_eq_repeatHeads {α : Type} (g : ℕ) (heads : List α) :
    groupedExpand g heads = repeatHeads g heads := by
  by_cases hg : g = 1
  · subst hg; simp [groupedExpand, repeatHeads_one]
  · simp [groupedExpand, hg, expandReshape_eq_repeatHeads]

theorem groupedExpand_one {α : Type} (heads : List α) :
    groupedExpand 1 heads = heads := by
  simp [groupedExpand]

/-- C5 — grouped-query expansion: the guarded `expand`+`reshape` of the
source equals literal contiguous repetition of each KV head `num_groups`
times (so the head axis grows to `num_kv_heads * num_groups`, and position
`h` of the result is KV head `h / num_groups`), and for `num_groups = 1` it
is a pass-through that returns K/V unchanged. -/
theorem grouped_query_expansion {α : Type} (g : ℕ) (heads : List α) (dflt : α) :
    groupedExpand g heads = repeatHeads g heads ∧
    (groupedExpand g heads).length = heads.length * g ∧
    groupedExpand 1 heads = heads ∧
    (∀ h, h < heads.length * g →
      (groupedExpand g heads).getD h dflt = heads.getD (h / g) dflt) := by
  have hmain := groupedExpand_eq_repeatHeads g heads
  refine ⟨hmain, ?_, groupedExpand_one heads, ?_⟩
  · rw [hmain, repeatHeads_length]
  · intro h hh
    rw [hmain, repeatHeads_getD g heads dflt h hh]

/-- Witness for C5 at a concrete shape: two KV heads expanded by
`num_groups = 2`; position `2` of the result is KV head `2 / 2 = 1`. -/
theorem grouped_query_expansion_witness :
    2 < [10, 20].length * 2 ∧
      (groupedExpand 2 [10, 20]).getD 2 0 = [10, 20].getD (2 / 2) 0 :=
  ⟨by decide, (grouped_query_expansion 2 [10, 20] 0).2.2.2 2 (by decide)⟩

/-! ## The attention data model

`Params` collects what the engine reads from the module configuration and
from its collaborators: the per-head projection maps `Wq/Wk/Wv` (the
`apply_qkv` interface, one function per head index), the output projection
`Wo` (`apply_o`, taking the concatenated list of head outputs), the head
counts `nKV = num_key_value_heads` and `g = num_key_value_groups`, plus the
abstracted numeric ingredients: `E` (the exponential used by softmax),
`rope p` (the rotary rotation at absolute position `p`, applied identically
to queries and keys — the two rope kernels live in `unsloth/kernels`,
outside these sources, and per the spec both modes realise the same fixed
per-position transform), and `scale` (the scalar `head_dim ** -0.5`). -/
structure Params (d m : ℕ) where
  E : ℚ → ℚ
  rope : ℕ → Vec d → Vec d
  scale : ℚ
  Wq : ℕ → Vec m → Vec d
  Wk : ℕ → Vec m → Vec d
  Wv : ℕ → Vec m → Vec d
  Wo : List (Vec d) → Vec m
  nKV : ℕ
  g : ℕ

/-- A (batch, heads, seq, head_dim) tensor: its batch size and head count,
and an indexing function giving the list of per-position head vectors. -/
structure BT4 (d : ℕ) where
  bsz : ℕ
  nh : ℕ
  data : ℕ → ℕ → List (Vec d)

/-- Indexing bridge for the broadcast: position `h` of the list-level
`groupedExpand` over heads `f 0, …, f (nKV - 1)` is `f (h / g)` — the
index form used by the tensor-level model below. -/
theorem groupedExpand_getD_range {β : Type} (g nKV : ℕ) (f : ℕ → List β) (h : ℕ)
    (hh : h < nKV * g) :
    (groupedExpand g ((List.range nKV).map f)).getD h [] = f (h / g) := by
  have hg : 0 < g := by
    rcases Nat.eq_zero_or_pos g with h0 | h0
    · subst h0; simp at hh
    · exact h0
  have hdiv : h / g < nKV := Nat.div_lt_of_lt_mul (by rw [Nat.mul_comm] at hh; exact hh)
  rw [groupedExpand_eq_repeatHeads g ((List.range nKV).map f),
    repeatHeads_getD g _ [] h (by simpa using hh)]
  simp [List.getD_eq_getElem?_getD, List.getElem?_map, List.getElem?_range, hdiv]

/-- `LlamaAttention_fast_forward_inference` (llama.py lines 77–159), one
single-token decode call.  Given the per-layer cache `(K1, V1)`, the new
hidden state `X` (one vector per batch element) and the new absolute
position `pos`:
project the new token's Q/K/V, rotate Q and K at `pos`, concatenate the new
K/V onto the cache along the sequence axis (`torch.cat` demands matching
batch and head-count dimensions — a mismatch raises, modelled as `none`),
expand K/V to the full head count when `n_groups != 1` (the
`expand`+`reshape` of lines 143–147, i.e. head `h ↦ h / g` by
`groupedExpand_getD_range`), attend the single query row of each head
against the grown K/V with no mask, concatenate heads and apply the output
projection.  The function returns the attention output together with the
updated cache exactly as the source does: the tensors *after* the grouped
expansion. -/
def LlamaAttention_fast_forward_inference {d m : ℕ} (P : Params d m)
    (K1 V1 : BT4 d) (X : ℕ → Vec m) (bsz pos : ℕ) :
    Option ((ℕ → Vec m) × BT4 d × BT4 d) :=
  if K1.bsz = bsz ∧ V1.bsz = bsz ∧ K1.nh = P.nKV ∧ V1.nh = P.nKV then
    some
      (fun b =>
        P.Wo ((List.range (P.nKV * P.g)).map fun h =>
          attendRow P.E P.scale (P.rope pos (P.Wq h (X b)))
            (if P.g = 1 then K1.data b h ++ [P.rope pos (P.Wk h (X b))]
             else K1.data b (h / P.g) ++ [P.rope pos (P.Wk (h / P.g) (X b))])
            (if P.g = 1 then V1.data b h ++ [P.Wv h (X b)]
             else V1.data b (h / P.g) ++ [P.Wv (h / P.g) (X b)])),
       if P.g = 1 then ⟨bsz, P.nKV, fun b h => K1.data b h ++ [P.rope pos (P.Wk h (X b))]⟩
       else ⟨bsz, P.nKV * P.g,
         fun b h => K1.data b (h / P.g) ++ [P.rope pos (P.Wk (h / P.g) (X b))]⟩,
       if P.g = 1 then ⟨bsz, P.nKV, fun b h => V1.data b h ++ [P.Wv h (X b)]⟩
       else ⟨bsz, P.nKV * P.g, fun b h => V1.data b (h / P.g) ++ [P.Wv (h / P.g) (X b)]⟩)
  else none

/-! ## Token-by-token decoding versus the full dense pass -/

/-- The canonical key list of head `h`, batch element `b`, for tokens `xs`
sitting at consecutive absolute positions `off, off+1, …`: each token's key
projection rotated at its own position. -/
def canonKs {d m : ℕ} (P : Params d m) (b h : ℕ) : ℕ → List (ℕ → Vec m) → List (Vec d)
  | _, [] => []
  | off, X :: rest => P.rope off (P.Wk h (X b)) :: canonKs P b h (off + 1) rest

/-- The canonical value list of head `h`, batch element `b`: value
projections are not rotated. -/
def canonVs {d m : ℕ} (P : Params d m) (b h : ℕ) : List (ℕ → Vec m) → List (Vec d)
  | [] => []
  | X :: rest => P.Wv h (X b) :: canonVs P b h rest

/-- The canonical (unexpanded) key cache over tokens `xs` at positions
`0, …, xs.length - 1`. -/
def canonKC {d m : ℕ} (P : Params d m) (bsz : ℕ) (xs : List (ℕ → Vec m)) : BT4 d :=
  ⟨bsz, P.nKV, fun b h => canonKs P b h 0 xs⟩

/-- The canonical (unexpanded) value cache over tokens `xs`. -/
def canonVC {d m : ℕ} (P : Params d m) (bsz : ℕ) (xs : List (ℕ → Vec m)) : BT4 d :=
  ⟨bsz, P.nKV, fun b h => canonVs P b h xs⟩

/-- The cache stored by a full-sequence `LlamaAttention_fast_forward` call
with `use_cache` over a one-token prompt (lines 196–217): the key rotated at
position 0 and the value, both *before* any grouped expansion —
`past_key_value = (K, V)` is taken at line 217, ahead of the branch-local
broadcasts. -/
def prefillKV {d m : ℕ} (P : Params d m) (bsz : ℕ) (X0 : ℕ → Vec m) : BT4 d × BT4 d :=
  (⟨bsz, P.nKV, fun b h => [P.rope 0 (P.Wk h (X0 b))]⟩,
   ⟨bsz, P.nKV, fun b h => [P.Wv h (X0 b)]⟩)

/-- Repeated single-token decoding: feed the tokens of `xs` one at a time
through `LlamaAttention_fast_forward_inference`, threading the cache each
call returns into the next call (positions advance by one per step, as
`LlamaModel_fast_forward` derives them from the cache length), and return
the final step's attention output.  A step that fails propagates. -/
def decodeLoop {d m : ℕ} (P : Params d m) (bsz : ℕ) :
    BT4 d → BT4 d → List (ℕ → Vec m) → ℕ → Option (ℕ → Vec m)
  | _, _, [], _ => none
  | K1, V1, X :: rest, pos =>
    match LlamaAttention_fast_forward_inference P K1 V1 X bsz pos with
    | none => none
    | some (A, K2, V2) =>
      match rest with
      | [] => some A
      | _ :: _ => decodeLoop P bsz K2 V2 rest (pos + 1)

/-- The incremental fast path end to end: prefill on the first token (a
full-sequence call with `use_cache`), then decode every further token
through the fast inference path, returning the final step's output. -/
def tokenByToken {d m : ℕ} (P : Params d m) (bsz : ℕ) (xs : List (ℕ → Vec m)) :
    Option (ℕ → Vec m) :=
  match xs with
  | [] => none
  | X0 :: rest =>
    decodeLoop P bsz (prefillKV P bsz X0).1 (prefillKV P bsz X0).2 rest 1

/-- The additive causal-mask row for query position `i`: zero at key
positions `j ≤ i`, a large negative number beyond (the dense mask that
`_prepare_4d_causal_attention_mask` materialises). -/
def causalMaskRow (i : ℕ) : ℕ → ℚ := fun j => if j ≤ i then 0 else -(2 ^ 30)

/-- Modelled from the spec: the reference full dense forward pass over the
whole sequence, final position only (§4.3 step 3 with §4.2 expansion — the
source's own dense fallback branch is inoperative, see
`dense_fallback_name_error`, and the fused kernels are external, so the
reference algorithm is taken from the spec).  All Q/K/V are projected and
rotated at positions `0, …, N-1`, K/V are expanded to the full head count by
literal contiguous repetition, and the last query row attends to every key
under the causal mask row of position `N-1`, followed by the output
projection. -/
def fullDenseFinal {d m : ℕ} (P : Params d m) (xs : List (ℕ → Vec m)) : ℕ → Vec m :=
  fun b =>
    P.Wo ((List.range (P.nKV * P.g)).map fun h =>
      attendRowMasked P.E P.scale
        (P.rope (xs.length - 1) (P.Wq h (xs.getLastD (fun _ _ => 0) b)))
        (causalMaskRow (xs.length - 1))
        ((groupedExpand P.g ((List.range P.nKV).map fun h0 => canonKs P b h0 0 xs)).getD h [])
        ((groupedExpand P.g ((List.range P.nKV).map fun h0 => canonVs P b h0 xs)).getD h []))

theorem canonKs_length {d m : ℕ} (P : Params d m) (b h : ℕ) :
    ∀ (xs : List (ℕ → Vec m)) (off : ℕ), (canonKs P b h off xs).length = xs.length := by
  intro xs
  induction xs with
  | nil => intro off; rfl
  | cons X rest ih => intro off; simp [canonKs, ih]

theorem canonVs_length {d m : ℕ} (P : Params d m) (b h : ℕ) :
    ∀ xs : List (ℕ → Vec m), (canonVs P b h xs).length = xs.length := by
  intro xs
  induction xs with
  | nil => rfl
  | cons X rest ih => simp [canonVs, ih]

theorem canonKs_append {d m : ℕ} (P : Params d m) (b h : ℕ) :
    ∀ (xs : List (ℕ → Vec m)) (off : ℕ) (X : ℕ → Vec m),
      canonKs P b h off (xs ++ [X])
        = canonKs P b h off xs ++ [P.rope (off + xs.length) (P.Wk h (X b))] := by
  intro xs
  induction xs with
  | nil => intro off X; simp [canonKs]
  | cons Y rest ih =>
      intro off X
      show P.rope off (P.Wk h (Y b)) :: canonKs P b h (off + 1) (rest ++ [X])
         = P.rope off (P.Wk h (Y b)) :: canonKs P b h (off + 1) rest
             ++ [P.rope (off + (Y :: rest).length) (P.Wk h (X b))]
      rw [ih (off + 1) X]
      have hoff : off + 1 + rest.length = off + (Y :: rest).length := by
        simp only [List.length_cons]; omega
      rw [hoff, List.cons_append]

theorem canonVs_append {d m : ℕ} (P : Params d m) (b h : ℕ) :
    ∀ (xs : List (ℕ → Vec m)) (X : ℕ → Vec m),
      canonVs P b h (xs ++ [X]) = canonVs P b h xs ++ [P.Wv h (X b)] := by
  intro xs
  induction xs with
  | nil => intro X; simp [canonVs]
  | cons Y rest ih =>
      intro X
      show P.Wv h (Y b) :: canonVs P b h (rest ++ [X])
         = P.Wv h (Y b) :: canonVs P b h rest ++ [P.Wv h (X b)]
      rw [ih X, List.cons_append]

/-- For an ungrouped layout, the dense reference output on `prev ++ [X]`
spelled out: the last row attends over the canonical keys/values with the
(all-zero) last causal mask row dropped. -/
theorem fullDenseFinal_concat_ungrouped {d m : ℕ} (P : Params d m) (hg : P.g = 1)
    (prev : List (ℕ → Vec m)) (X : ℕ → Vec m) :
    fullDenseFinal P (prev ++ [X])
      = fun b => P.Wo ((List.range (P.nKV * P.g)).map fun h =>
          attendRow P.E P.scale (P.rope prev.length (P.Wq h (X b)))
            (canonKs P b h 0 prev ++ [P.rope prev.length (P.Wk h (X b))])
            (canonVs P b h prev ++ [P.Wv h (X b)])) := by
  funext b
  unfold fullDenseFinal
  rw [hg]
  have hlen : (prev ++ [X]).length - 1 = prev.length := by simp
  have hlast : (prev ++ [X]).getLastD (fun _ _ => (0 : ℚ)) = X := List.getLastD_concat _ _ _
  rw [hlen, hlast]
  refine congrArg P.Wo (List.map_congr_left ?_)
  intro h hmem
  have hh : h < P.nKV * 1 := List.mem_range.mp hmem
  rw [groupedExpand_getD_range 1 P.nKV _ h hh, groupedExpand_getD_range 1 P.nKV _ h hh,
    Nat.div_one, canonKs_append P b h prev 0 X, Nat.zero_add, canonVs_append P b h prev X]
  refine attendRowMasked_eq_attendRow _ _ _ _ _ _ ?_
  intro p hp
  have hlen2 : (canonKs P b h 0 prev ++ [P.rope prev.length (P.Wk h (X b))]).length
      = prev.length + 1 := by simp [canonKs_length]
  rw [hlen2] at hp
  unfold causalMaskRow
  rw [if_pos (by omega)]

/-- One fast decode step on the canonical cache of `prev` (ungrouped layout)
returns exactly the dense reference's final-row output on `prev ++ [X]`,
together with the canonical cache of `prev ++ [X]`. -/
theorem decodeStep_canon {d m : ℕ} (P : Params d m) (hg : P.g = 1) (bsz : ℕ)
    (prev : List (ℕ → Vec m)) (X : ℕ → Vec m) :
    LlamaAttention_fast_forward_inference P (canonKC P bsz prev) (canonVC P bsz prev) X bsz
        prev.length
      = some (fullDenseFinal P (prev ++ [X]),
          canonKC P bsz (prev ++ [X]), canonVC P bsz (prev ++ [X])) := by
  unfold LlamaAttention_fast_forward_inference
  rw [if_pos ⟨rfl, rfl, rfl, rfl⟩]
  simp only [if_pos hg, Option.some.injEq, Prod.mk.injEq]
  refine ⟨?_, ?_, ?_⟩
  · rw [fullDenseFinal_concat_ungrouped P hg prev X]
    rfl
  · unfold canonKC
    congr 1
    funext b h
    show canonKs P b h 0 prev ++ [P.rope prev.length (P.Wk h (X b))]
       = canonKs P b h 0 (prev ++ [X])
    rw [canonKs_append P b h prev 0 X, Nat.zero_add]
  · unfold canonVC
    congr 1
    funext b h
    show canonVs P b h prev ++ [P.Wv h (X b)] = canonVs P b h (prev ++ [X])
    rw [canonVs_append P b h prev X]

/-- Decoding the tokens `X :: rest` one at a time starting from the canonical
cache of `prev` (ungrouped layout) ends in the dense reference's final-row
output over the whole reconstructed sequence. -/
theorem decodeLoop_canon {d m : ℕ} (P : Params d m) (hg : P.g = 1) (bsz : ℕ) :
    ∀ (rest : List (ℕ → Vec m)) (X : ℕ → Vec m) (prev : List (ℕ → Vec m)),
      decodeLoop P bsz (canonKC P bsz prev) (canonVC P bsz prev) (X :: rest) prev.length
        = some (fullDenseFinal P (prev ++ X :: rest)) := by
  intro rest
  induction rest with
  | nil =>
      intro X prev
      unfold decodeLoop
      rw [decodeStep_canon P hg bsz prev X]
  | cons Y rest ih =>
      intro X prev
      unfold decodeLoop
      rw [decodeStep_canon P hg bsz prev X]
      have h2 := ih Y (prev ++ [X])
      have hlen : (prev ++ [X]).length = prev.length + 1 := by simp
      rw [hlen, List.append_assoc] at h2
      exact h2

/-- C1 (amended) — incremental-decode equivalence for ungrouped layouts:
decoding token-by-token through the incremental fast path (project only the
new token's Q/K/V, rotate at the new absolute position, concatenate new K/V
onto the cached K/V, attend the single Q row against the grown K/V with no
mask) produces the same final-step attention output as a single full dense
pass over the entire reconstructed sequence, *provided* the head layout is
ungrouped (`num_key_value_groups = 1`).  The restriction is forced by the
source: with grouped heads the first decode step stores the *expanded*
tensors as the cache, so the next step's `torch.cat` fails on a head-count
mismatch (`incremental_decode_equivalence_cx`). -/
theorem incremental_decode_equivalence {d m : ℕ} (P : Params d m) (hg : P.g = 1)
    (bsz : ℕ) (X0 X1 : ℕ → Vec m) (rest : List (ℕ → Vec m)) :
    tokenByToken P bsz (X0 :: X1 :: rest)
      = some (fullDenseFinal P (X0 :: X1 :: rest)) :=
  decodeLoop_canon P hg bsz rest X1 [X0]

/-- Concrete parameters for witnesses: an ungrouped single-head layout over
one-dimensional heads, with identity stand-ins for the abstracted
exponential, rotation and projections. -/
def cP : Params 1 1 :=
  ⟨fun x => x, fun _ v => v, 1, fun _ v => v, fun _ v => v, fun _ v => v,
   fun l i => (l.map fun v => v i).sum, 1, 1⟩

/-- Grouped concrete parameters: one KV head shared by two query heads. -/
def cP2 : Params 1 1 :=
  ⟨fun x => x, fun _ v => v, 1, fun _ v => v, fun _ v => v, fun _ v => v,
   fun l i => (l.map fun v => v i).sum, 1, 2⟩

/-- A concrete one-position, one-head, one-batch cache. -/
def cK1 : BT4 1 := ⟨1, 1, fun _ _ => [fun _ => 0]⟩

/-- A concrete batched hidden-state vector. -/
def cX : ℕ → Vec 1 := fun _ _ => 1

/-- Witness for C1: a two-token sequence decoded through the fast path on
the concrete ungrouped layout agrees with the dense reference. -/
theorem incremental_decode_equivalence_witness :
    cP.g = 1 ∧
      tokenByToken cP 1 [cX, cX]
        = some (fullDenseFinal cP [cX, cX]) :=
  ⟨rfl, incremental_decode_equivalence cP rfl 1 cX cX []⟩

/-- Counterexample to C1 as stated (without the ungrouped restriction): on
the grouped layout `num_kv_heads = 1, num_groups = 2`, decoding three tokens
token-by-token does *not* reproduce the dense pass — the second decode step
aborts because the cache returned by the first step carries the expanded
head count `2 ≠ num_kv_heads`, so the fast path yields `none`. -/
theorem incremental_decode_equivalence_cx :
    tokenByToken cP2 1 [cX, cX, cX]
      ≠ some (fullDenseFinal cP2 [cX, cX, cX]) := by
  intro hc
  have hnone : tokenByToken cP2 1 [cX, cX, cX] = (none : Option (ℕ → Vec 1)) := rfl
  rw [hnone] at hc
  exact Option.noConfusion hc

/-- C2 (amended) — cache growth: a single-token decode call on a cache of
sequence length `L` (with matching batch and head-count dimensions, as
`torch.cat` requires) succeeds and returns caches of sequence length
`L + 1`, K and V growing in lockstep; the batch dimension is unchanged; the
head-count of the *returned* cache equals the full query-head count
`num_kv_heads * num_groups` — it equals the input's head count exactly in
the ungrouped case `num_groups = 1`.  (The original claim's "head-count
unchanged" fails for grouped layouts: see `cache_growth_cx`.) -/
theorem cache_growth {d m : ℕ} (P : Params d m) (K1 V1 : BT4 d) (X : ℕ → Vec m)
    (bsz pos L : ℕ) (hKb : K1.bsz = bsz) (hVb : V1.bsz = bsz)
    (hKh : K1.nh = P.nKV) (hVh : V1.nh = P.nKV)
    (hKL : ∀ b h, (K1.data b h).length = L) (hVL : ∀ b h, (V1.data b h).length = L) :
    ∃ A K2 V2,
      LlamaAttention_fast_forward_inference P K1 V1 X bsz pos = some (A, K2, V2) ∧
      (∀ b h, (K2.data b h).length = L + 1) ∧
      (∀ b h, (V2.data b h).length = L + 1) ∧
      K2.bsz = bsz ∧ V2.bsz = bsz ∧
      K2.nh = P.nKV * P.g ∧ V2.nh = P.nKV * P.g ∧
      (P.g = 1 → K2.nh = K1.nh ∧ V2.nh = V1.nh) := by
  unfold LlamaAttention_fast_forward_inference
  rw [if_pos ⟨hKb, hVb, hKh, hVh⟩]
  by_cases hgg : P.g = 1
  · simp only [if_pos hgg]
    refine ⟨_, _, _, rfl, ?_, ?_, rfl, rfl, ?_, ?_, fun _ => ⟨hKh.symm, hVh.symm⟩⟩
    · intro b h; simp [hKL b h]
    · intro b h; simp [hVL b h]
    · show P.nKV = P.nKV * P.g
      rw [hgg, Nat.mul_one]
    · show P.nKV = P.nKV * P.g
      rw [hgg, Nat.mul_one]
  · simp only [if_neg hgg]
    refine ⟨_, _, _, rfl, ?_, ?_, rfl, rfl, rfl, rfl, fun h1 => absurd h1 hgg⟩
    · intro b h; simp [hKL b (h / P.g)]
    · intro b h; simp [hVL b (h / P.g)]

/-- Witness for C2 at a concrete call: concrete ungrouped layout, cache of
length 1, batch 1; the call succeeds, both caches reach length 2, batch and
head dimensions come back as batch 1 and `nKV * g = 1`. -/
theorem cache_growth_witness :
    cK1.nh = cP.nKV ∧
      (∃ A K2 V2,
        LlamaAttention_fast_forward_inference cP cK1 cK1 cX 1 1 = some (A, K2, V2) ∧
        (∀ b h, (K2.data b h).length = 1 + 1) ∧
        (∀ b h, (V2.data b h).length = 1 + 1) ∧
        K2.bsz = 1 ∧ V2.bsz = 1 ∧
        K2.nh = cP.nKV * cP.g ∧ V2.nh = cP.nKV * cP.g ∧
        (cP.g = 1 → K2.nh = cK1.nh ∧ V2.nh = cK1.nh)) :=
  ⟨rfl, cache_growth cP cK1 cK1 cX 1 1 1 rfl rfl rfl rfl
    (fun _ _ => rfl) (fun _ _ => rfl)⟩

/-- Counterexample to C2 as stated: on the grouped layout
`num_kv_heads = 1, num_groups = 2`, the head-count dimension of the cache is
*not* unchanged — the call maps an input cache with 1 head to an output
cache with 2 heads (the expanded tensors are stored). -/
theorem cache_growth_cx :
    (LlamaAttention_fast_forward_inference cP2 cK1 cK1 cX 1 1).map (fun r => r.2.1.nh)
      ≠ some cK1.nh := by
  intro hc
  have h2 : (LlamaAttention_fast_forward_inference cP2 cK1 cK1 cX 1 1).map
      (fun r => r.2.1.nh) = some 2 := rfl
  rw [h2] at hc
  exact absurd (Option.some.inj hc) (by decide)

/-! ## The dense fallback branch (llama.py lines 251–272) -/

/-- The Python local names bound in `LlamaAttention_fast_forward` when
control reaches the dense fallback's first statement
`scores = (q @ k.transpose(-2, -1)) * (head_dim ** -0.5)` (line 261):
the parameters, the sizes unpacked at line 176, the projections `Q`, `K`,
`V` of line 177, the head counts of lines 190–193, and the rope data of
lines 200–211. -/
def denseFallbackScope : List String :=
  ["self", "hidden_states", "causal_mask", "attention_mask", "position_ids",
   "past_key_value", "output_attentions", "use_cache", "padding_mask",
   "args", "kwargs", "bsz", "q_len", "Q", "K", "V",
   "n_heads", "n_groups", "n_kv_heads", "head_dim", "kv_seq_len", "cos", "sin"]

/-- Python evaluation of the dense fallback's score statement: the
expression reads the names `q` and `k`; if either is unbound in the
enclosing scope, the statement raises `NameError` before any arithmetic.
`compute` abstracts the value the statement would produce if both names
were bound. -/
def denseFallbackScores {α : Type} (scope : List String) (compute : α) :
    Except String α :=
  if "q" ∈ scope then
    if "k" ∈ scope then Except.ok compute
    else Except.error "NameError: name k is not defined"
  else Except.error "NameError: name q is not defined"

/-- C3 — the dense fallback is inoperative as written (code bug): the branch
reads the lowercase names `q` and `k`, bound nowhere in
`LlamaAttention_fast_forward` (only uppercase `Q` and `K` are), so any call
reaching the branch raises `NameError` instead of computing
`scores = Q·Kᵀ × head_dim^-0.5` plus the mask (its softmax also lacks the
`dtype=float32` accumulator that the inference path uses at line 153).  The
conforming dense algorithm the claim describes is the one modelled by
`fullDenseFinal`. -/
theorem dense_fallback_name_error :
    denseFallbackScores denseFallbackScope (0 : ℚ)
      = Except.error "NameError: name q is not defined" := rfl

/-! ## Shifted-label loss (llama.py lines 538–551 and 824–827) -/

/-- The preallocated ignore-label buffer `extra_ignored_labels`: a
`(max_seq_length, 1)` tensor filled with the ignore value `-100`. -/
def extra_ignored_labels (max_seq_length : ℕ) : List (List ℤ) :=
  List.replicate max_seq_length [-100]

/-- `torch.hstack` on two `(batch, ·)` tensors: rowwise concatenation,
raising (here `none`) when the row counts differ. -/
def hstack (a b : List (List ℤ)) : Option (List (List ℤ)) :=
  if a.length = b.length then some (List.zipWith (· ++ ·) a b) else none

/-- The shifted-label construction of `LlamaForCausalLM_fast_forward`
(line 546):
`shift_labels = torch.hstack((labels[..., 1:],
                              self.extra_ignored_labels[:labels.shape[0]]))`
— drop each row's first label, then append the ignore buffer sliced to the
batch size as one extra column. -/
def shift_labels (labels : List (List ℤ)) (max_seq_length : ℕ) :
    Option (List (List ℤ)) :=
  hstack (labels.map (List.drop 1))
    ((extra_ignored_labels max_seq_length).take labels.length)

/-- Modelled from the spec: the per-position term of
`fast_cross_entropy_loss` (the kernel lives in `unsloth/kernels`, outside
these sources).  Per §4.7, a position whose label is the ignore value `-100`
contributes zero loss; on other positions the cross-entropy of the logits
row against the label, abstracted as `ce`, is charged. -/
def lossTerm (ce : List ℚ → ℤ → ℚ) (logitsRow : List ℚ) (label : ℤ) : ℚ :=
  if label = -100 then 0 else ce logitsRow label

/-- Modelled from the spec: `fast_cross_entropy_loss` — mean of the
per-position terms over the positions that are not ignored. -/
def fast_cross_entropy_loss (ce : List ℚ → ℤ → ℚ) (logits : List (List ℚ))
    (labels : List ℤ) : ℚ :=
  (List.zipWith (lossTerm ce) logits labels).sum
    / (((labels.filter fun l => l != -100).length : ℕ) : ℚ)

theorem zipWith_append_replicate (labels : List (List ℤ)) :
    List.zipWith (· ++ ·) (labels.map (List.drop 1))
        (List.replicate labels.length [-100])
      = labels.map fun r => r.drop 1 ++ [-100] := by
  induction labels with
  | nil => rfl
  | cons r t ih => simp only [List.map_cons, List.length_cons, List.replicate_succ,
      List.zipWith_cons_cons, ih]

/-- C4 — shifted-label construction: for any batch whose size does not
exceed the configured maximum sequence length, `shift_labels` succeeds and
equals, row by row, dropping the first label and appending the ignore value
(`[a, b, c] ↦ [b, c, -100]`); each nonempty row keeps its length (= the
logits sequence length); and a position whose shifted label is the ignore
value contributes zero loss. -/
theorem shifted_label_loss (labels : List (List ℤ)) (max_seq_length : ℕ)
    (hb : labels.length ≤ max_seq_length) :
    shift_labels labels max_seq_length
        = some (labels.map fun r => r.drop 1 ++ [-100]) ∧
      (∀ r ∈ labels, 1 ≤ r.length → (r.drop 1 ++ [-100]).length = r.length) ∧
      (∀ ce logitsRow, lossTerm ce logitsRow (-100) = 0) := by
  refine ⟨?_, ?_, ?_⟩
  · unfold shift_labels hstack extra_ignored_labels
    rw [List.take_replicate]
    have hmin : min labels.length max_seq_length = labels.length := by omega
    rw [hmin, if_pos (by simp), zipWith_append_replicate]
  · intro r _ hr
    simp only [List.length_append, List.length_drop, List.length_cons, List.length_nil]
    omega
  · intro ce logitsRow
    simp [lossTerm]

/-- Witness for C4 on the spec's concrete scenario: one batch row with
labels `[1, 2, 3]` and maximum sequence length 4 shifts to `[2, 3, -100]`. -/
theorem shifted_label_loss_witness :
    [[(1 : ℤ), 2, 3]].length ≤ 4 ∧
      shift_labels [[1, 2, 3]] 4 = some [[2, 3, -100]] :=
  ⟨by decide, by simpa using (shifted_label_loss [[1, 2, 3]] 4 (by decide)).1⟩

/-! ## Causal-mask construction (llama.py lines 404–416, 512–513, 180) -/

/-- The three masking representations of the engine: the structural
(block-diagonal / lower-triangular) xformers causal descriptor, a dense
additive 4-d mask tensor carried by its shape, or no mask at all. -/
inductive MaskRepr where
  | structural : MaskRepr
  | dense : ℕ × ℕ × ℕ × ℕ → MaskRepr
  | absent : MaskRepr
  deriving DecidableEq

/-- The padding flag of lines 405–411: the indicator is retained as
`padding_mask` only when it contains a masked (zero) position. -/
def padding_mask_of (attention_mask : Option (List (List ℤ))) :
    Option (List (List ℤ)) :=
  match attention_mask with
  | none => none
  | some a => if a.any fun row => row.contains 0 then some a else none

/-- Mask construction of the engine.  During single-token decode with a
non-empty cache (the line-180 dispatch), the inference routine takes no mask
argument at all.  Otherwise, lines 404–416: with no attention indicator no
dense tensor is built and the structural xformers causal descriptor
(`causal_mask`, lines 512–513) stands; with an indicator — whether or not it
contains a zero — `_prepare_4d_causal_attention_mask` materialises a dense
additive tensor of shape `(batch, 1, query_len, query_len + past_len)` (its
documented output shape; the zero test only selects `padding_mask`). -/
def CausalMaskBuilder (attention_mask : Option (List (List ℤ)))
    (bsz q_len past_len : ℕ) (use_cache : Bool) : MaskRepr :=
  if use_cache ∧ past_len ≠ 0 ∧ q_len = 1 then MaskRepr.absent
  else
    match attention_mask with
    | none => MaskRepr.structural
    | some _ => MaskRepr.dense (bsz, 1, q_len, q_len + past_len)

/-- C6 (amended) — mask selection: single-token decode with a non-empty
cache applies no mask at all; outside that path, the structural causal
descriptor (with no dense tensor) is used exactly when no attention
indicator is provided, while *any* provided indicator — zero or not —
yields a dense additive mask of shape `(batch, 1, query_len, key_len)`; the
zero test only decides the padding flag.  (The original claim — no dense
tensor for an unpadded batch whose indicator is provided — fails:
see `mask_selection_cx`.) -/
theorem mask_selection (attention_mask : Option (List (List ℤ)))
    (bsz q_len past_len : ℕ) (use_cache : Bool) :
    (use_cache = true → past_len ≠ 0 → q_len = 1 →
      CausalMaskBuilder attention_mask bsz q_len past_len use_cache = MaskRepr.absent) ∧
    (¬(use_cache = true ∧ past_len ≠ 0 ∧ q_len = 1) →
      CausalMaskBuilder none bsz q_len past_len use_cache = MaskRepr.structural ∧
      ∀ a, CausalMaskBuilder (some a) bsz q_len past_len use_cache
          = MaskRepr.dense (bsz, 1, q_len, q_len + past_len)) ∧
    (∀ a, padding_mask_of (some a) = some a ↔ (a.any fun row => row.contains 0) = true) := by
  refine ⟨?_, ?_, ?_⟩
  · intro hu hp hq
    unfold CausalMaskBuilder
    rw [if_pos ⟨by simp [hu], hp, hq⟩]
  · intro hn
    constructor
    · unfold CausalMaskBuilder
      rw [if_neg (by simpa using hn)]
    · intro a
      unfold CausalMaskBuilder
      rw [if_neg (by simpa using hn)]
  · intro a
    unfold padding_mask_of
    by_cases hz : (a.any fun row => row.contains 0) = true
    · simp [hz]
    · simp [hz]

/-- Witness for C6: a provided all-ones 1×2 indicator outside the decode
path yields the dense 4-d mask of shape `(1, 1, 2, 2)`. -/
theorem mask_selection_witness :
    ¬(false = true ∧ (0 : ℕ) ≠ 0 ∧ (2 : ℕ) = 1) ∧
      CausalMaskBuilder (some [[1, 1]]) 1 2 0 false = MaskRepr.dense (1, 1, 2, 2 + 0) :=
  ⟨by decide, ((mask_selection (some [[1, 1]]) 1 2 0 false).2.1 (by decide)).2 [[1, 1]]⟩

/-- Counterexample to C6 as stated: for an unpadded same-length batch whose
(all-ones) indicator is provided, the builder does *not* return the
structural descriptor — a dense mask tensor is allocated. -/
theorem mask_selection_cx :
    CausalMaskBuilder (some [[1, 1]]) 1 2 0 false ≠ MaskRepr.structural := by decide

/-! ## Model-forward entry checks (llama.py lines 357–374) -/

/-- Whether an `Except` outcome is a success. -/
def exOk {ε α : Type} : Except ε α → Bool
  | Except.ok _ => true
  | Except.error _ => false

/-- The opening of `LlamaModel_fast_forward`, in source order: the
`assert(output_attentions is False)` of line 358 runs first, then the
input-contract checks of lines 367–374 (both supplied → error; token ids →
shape from `input_ids.shape`; embeddings → shape from
`inputs_embeds.shape`; neither → error).  Only shapes stand in for the
tensors; the returned event list records tensor operations — the first one
in the source is the `embed_tokens` lookup of line 402, reached only when
every check has passed (and only needed when no embeddings were given). -/
def LlamaModel_fast_forward_entry (output_attentions : Bool)
    (input_ids : Option (ℕ × ℕ)) (inputs_embeds : Option (ℕ × ℕ × ℕ)) :
    List String × Except String (ℕ × ℕ) :=
  if output_attentions then ([], Except.error "assert output_attentions is False")
  else
    match input_ids, inputs_embeds with
    | some _, some _ =>
        ([], Except.error "You cannot specify both decoder_input_ids and decoder_inputs_embeds at the same time")
    | some (b, s), none => (["embed_tokens allocates inputs_embeds"], Except.ok (b, s))
    | none, some (b, s, _) => ([], Except.ok (b, s))
    | none, none =>
        ([], Except.error "You have to specify either decoder_input_ids or decoder_inputs_embeds")

/-- C7 — input contract: with attentions not requested, the model forward
raises an input-contract error exactly when both or neither of token ids /
input embeddings are supplied — and then at call entry, before any tensor
work (the event log is empty); when exactly one is supplied, no such error
is raised. -/
theorem input_contract (input_ids : Option (ℕ × ℕ))
    (inputs_embeds : Option (ℕ × ℕ × ℕ)) :
    (exOk (LlamaModel_fast_forward_entry false input_ids inputs_embeds).2
        = (input_ids.isSome != inputs_embeds.isSome)) ∧
    (input_ids.isSome = inputs_embeds.isSome →
      (LlamaModel_fast_forward_entry false input_ids inputs_embeds).1 = []) := by
  rcases input_ids with _ | ⟨b, s⟩ <;> rcases inputs_embeds with _ | ⟨b2, s2, h2⟩ <;>
    simp [LlamaModel_fast_forward_entry, exOk]

/-- Witness for C7 at the "both supplied" corner: the error is raised with
an empty event log — no tensor work happened. -/
theorem input_contract_witness :
    ((some (1, 2) : Option (ℕ × ℕ)).isSome
        = (some (1, 2, 4) : Option (ℕ × ℕ × ℕ)).isSome) ∧
      (LlamaModel_fast_forward_entry false (some (1, 2)) (some (1, 2, 4))).1 = [] :=
  ⟨by decide, (input_contract (some (1, 2)) (some (1, 2, 4))).2 (by decide)⟩

/-- C8 — `want_attentions` is strict: whenever per-head attention weights
are requested, the model forward fails explicitly at entry (the line-358
assertion), whatever the other inputs, with no tensor work done — the call
never completes while silently ignoring the request. -/
theorem want_attentions_strict (input_ids : Option (ℕ × ℕ))
    (inputs_embeds : Option (ℕ × ℕ × ℕ)) :
    LlamaModel_fast_forward_entry true input_ids inputs_embeds
      = ([], Except.error "assert output_attentions is False") := rfl

/-! ## Head-layout check (llama.py lines 176–194 and 120–124) -/

/-- Control flow of `LlamaAttention_fast_forward` up to the head-layout
assertion: the call *first* projects Q/K/V through `apply_qkv` (line 177, a
tensor allocation), then either dispatches to the single-token inference
routine — whose own `assert(n_kv_heads * n_groups == n_heads)` (line 124)
runs before that routine's projections — or reaches the identical assertion
of line 194.  A failing assertion is `.error`; the event list records the
tensor allocations performed before the outcome. -/
def LlamaAttention_fast_forward_layout_check (use_cache has_past : Bool)
    (q_len n_heads n_kv_heads n_groups : ℕ) : List String × Except String Unit :=
  if use_cache ∧ has_past ∧ q_len = 1 then
    if n_kv_heads * n_groups = n_heads then
      (["apply_qkv allocates Q K V", "inference projections, rope, cache update"],
       Except.ok ())
    else
      (["apply_qkv allocates Q K V"],
       Except.error "assert n_kv_heads * n_groups == n_heads")
  else
    if n_kv_heads * n_groups = n_heads then
      (["apply_qkv allocates Q K V", "view, rope, attention"], Except.ok ())
    else
      (["apply_qkv allocates Q K V"],
       Except.error "assert n_kv_heads * n_groups == n_heads")

/-- C9 (amended) — head-layout rejection: on every dispatch path the
attention call fails on the layout assertion iff
`num_kv_heads * num_groups ≠ num_query_heads`, and passes iff the invariant
holds.  (The original claim's "performs no tensor allocation before
raising" fails: the `apply_qkv` projection of line 177 precedes both
assertion sites — see `head_layout_rejection_cx`.) -/
theorem head_layout_rejection (use_cache has_past : Bool)
    (q_len n_heads n_kv_heads n_groups : ℕ) :
    exOk (LlamaAttention_fast_forward_layout_check use_cache has_past q_len
        n_heads n_kv_heads n_groups).2 = true
      ↔ n_kv_heads * n_groups = n_heads := by
  unfold LlamaAttention_fast_forward_layout_check
  split_ifs with h1 h2 h3 <;> simp_all [exOk]

/-- Counterexample to C9 as stated: on the invalid layout
`n_heads = 3, n_kv_heads = 1, n_groups = 1` the call raises the
configuration assertion, but a tensor allocation (the Q/K/V projection)
has already been performed. -/
theorem head_layout_rejection_cx :
    (LlamaAttention_fast_forward_layout_check false false 2 3 1 1).2
        = Except.error "assert n_kv_heads * n_groups == n_heads" ∧
      (LlamaAttention_fast_forward_layout_check false false 2 3 1 1).1 ≠ [] :=
  ⟨rfl, by decide⟩

/-! ## Position-id handling (llama.py lines 376–398) -/

/-- The final broadcast of lines 396–398: a row count different from the
batch size is tiled `batch_size` times (`repeat((batch_size, 1))` stacks
`batch_size` copies along the row axis). -/
def broadcastRows (rows : List (List ℤ)) (batch_size : ℕ) : List (List ℤ) :=
  if rows.length ≠ batch_size then (List.replicate batch_size rows).flatten else rows

/-- The position-id computation of `LlamaModel_fast_forward` (lines
376–398): `past_key_values_length` is the cache's stored sequence length
when a cache is present and 0 otherwise; a non-zero past length *replaces*
any caller positions with the single row
`arange(past_len, past_len + seq_len)`; otherwise the caller's
`(rows, seq_len)` positions pass through (`view(-1, seq_len)` and the
`int32` cast preserve the rows) or stay absent; finally `broadcastRows`
tiles a mismatched row count to the batch size. -/
def LlamaModel_position_ids (past_key_values : Option ℕ)
    (position_ids : Option (List (List ℤ))) (batch_size seq_len : ℕ) :
    Option (List (List ℤ)) :=
  match (if past_key_values.getD 0 ≠ 0 then
      some [(List.range seq_len).map fun i => ((past_key_values.getD 0 + i : ℕ) : ℤ)]
    else position_ids) with
  | none => none
  | some rows => some (broadcastRows rows batch_size)

theorem flatten_replicate_singleton {α : Type} (n : ℕ) (a : α) :
    (List.replicate n [a]).flatten = List.replicate n a := by
  induction n with
  | zero => rfl
  | succ k ih => simp [List.replicate_succ, ih]

theorem broadcastRows_singleton (row : List ℤ) (batch_size : ℕ) :
    broadcastRows [row] batch_size = List.replicate batch_size row := by
  unfold broadcastRows
  by_cases hb : [row].length ≠ batch_size
  · rw [if_pos hb, flatten_replicate_singleton]
  · rw [if_neg hb]
    push_neg at hb
    simp at hb
    rw [← hb]
    simp [List.replicate_succ]

/-- C10 — cache overrides caller positions: whenever the model forward runs
with a non-empty key/value cache, any caller-supplied `position_ids` is
discarded and replaced by the consecutive range
`past_len .. past_len + seq_len - 1` broadcast to the batch; with no cache,
well-shaped caller positions take effect unchanged. -/
theorem position_ids_override (past_len : ℕ)
    (position_ids : Option (List (List ℤ))) (batch_size seq_len : ℕ)
    (hp : past_len ≠ 0) :
    LlamaModel_position_ids (some past_len) position_ids batch_size seq_len
        = some (List.replicate batch_size
            ((List.range seq_len).map fun i => ((past_len + i : ℕ) : ℤ))) ∧
      (∀ rows, rows.length = batch_size →
        LlamaModel_position_ids none (some rows) batch_size seq_len = some rows) := by
  constructor
  · unfold LlamaModel_position_ids
    simp only [Option.getD_some]
    rw [if_pos hp]
    show some (broadcastRows
        [(List.range seq_len).map fun i => ((past_len + i : ℕ) : ℤ)] batch_size) = _
    rw [broadcastRows_singleton]
  · intro rows hrows
    unfold LlamaModel_position_ids broadcastRows
    simp [hrows]

/-- Witness for C10: cache length 3, caller positions `[[9, 9]]`, batch 2,
sequence length 2 — the caller's rows are discarded and the range `[3, 4]`
is broadcast to both batch rows. -/
theorem position_ids_override_witness :
    (3 : ℕ) ≠ 0 ∧
      LlamaModel_position_ids (some 3) (some [[9, 9]]) 2 2
        = some (List.replicate 2 ((List.range 2).map fun i => (((3 : ℕ) + i : ℕ) : ℤ))) :=
  ⟨by decide, (position_ids_override 3 (some [[9, 9]]) 2 2 (by decide)).1⟩

end Unsloth
